import Mathlib

/-!
Verification development for a browser-resident task manager (a React/TypeScript
repository). The core routines under verification are:

* a fuzzy text matcher used for task search
  (`fuzzySearch` and `levenshteinDistance` in `src/components/AnalyticsView.tsx`),
* the 42-cell month-grid construction of the calendar view
  (`getDaysInMonth` and `renderCalendar` in `src/components/AnalyticsView.tsx`),
* the analytics aggregator (`AnalyticsView`),
* task CRUD operations (`handleSubmit`, `toggleTaskCompletion`, `deleteTask`),
* storage helpers (`loadTasks`, `saveTasks`, `isOverdue`, `sortTasks` in
  `src/utils/storage.ts`).

Modelling conventions, used throughout:

* JavaScript strings are modelled as `List Char`; `String` values at the API
  boundary are converted through `String.data`.
* JavaScript timestamps (`Date` instants, obtained by parsing the stored ISO
  strings) are modelled as integers (milliseconds since the Unix epoch, UTC).
  `new Date(s)` on a stored ISO string and `.getTime()` thus become the
  identity on the stored integer instant.
* `Date` calendar arithmetic (`new Date(y, m, d)` with out-of-range month or
  day arguments, `.getDate()`, `.getDay()`) is modelled by proleptic Gregorian
  day-number arithmetic, exactly the arithmetic the ECMAScript specification
  prescribes for these operations.
* Number arithmetic on rates and averages is modelled by exact rational
  arithmetic; `Math.round` is the round-half-up function `fun x => ⌊x + 1/2⌋`
  and `Math.ceil` is `Int.ceil`, which agree with the JavaScript functions on
  all non-NaN finite values.
* The browser storage boundary (`localStorage`, `JSON.parse`) is modelled by
  explicit `Option`/`Except` arguments describing the outcome of the
  effectful calls.
-/

namespace TM

/-! ### Character classes and string normalization

`fuzzySearch` normalizes with `toLowerCase`, `trim`, a regex replace of
`[^\w\s]` by the empty string, and a split on `\s+`. The character classes
below model the ECMAScript regex classes: `\w` is `[A-Za-z0-9_]` and `\s` is
the ECMAScript WhiteSpace / LineTerminator set. -/

/-- Model of the ECMAScript regex class `\s` (and of the character set used by
`String.prototype.trim`): ASCII whitespace together with the Unicode space
characters listed by the ECMAScript specification. -/
def jsSpace (c : Char) : Bool :=
  let n := c.toNat
  n == 9 || n == 10 || n == 11 || n == 12 || n == 13 || n == 32 ||
    n == 160 || n == 5760 || (8192 ≤ n && n ≤ 8202) || n == 8232 ||
    n == 8233 || n == 8239 || n == 8287 || n == 12288 || n == 65279

/-- Model of the ECMAScript regex class `\w`: ASCII letters, ASCII digits and
the underscore. -/
def wordChar (c : Char) : Bool :=
  c.isAlphanum || c == '_'

/-- Model of `String.prototype.toLowerCase` on one character. On the ASCII
range this is exact. Characters outside ASCII are left unchanged; this is
adequate for the matcher because every non-ASCII character fails `wordChar`
and is stripped by the punctuation filter whether or not it was lowercased. -/
def jsToLower (c : Char) : Char :=
  if 65 ≤ c.toNat ∧ c.toNat ≤ 90 then Char.ofNat (c.toNat + 32) else c

/-- `s.toLowerCase()` on a whole string. -/
def lowerL (s : List Char) : List Char :=
  s.map jsToLower

/-- `s.trim()`: drop leading and trailing whitespace. -/
def trimL (s : List Char) : List Char :=
  ((s.dropWhile jsSpace).reverse.dropWhile jsSpace).reverse

/-- `s.replace(/[^\w\s]/g, "")`: keep exactly the word characters and the
whitespace characters, deleting everything else. -/
def cleanL (s : List Char) : List Char :=
  s.filter fun c => wordChar c || jsSpace c

/-- `s.split(/\s+/).filter(word => word.length > 0)`: the maximal runs of
non-whitespace characters. `List.splitOnP` splits at every whitespace
character, which differs from splitting at runs only by empty pieces, and
those are removed by the same length filter the source applies. -/
def toksL (s : List Char) : List (List Char) :=
  (List.splitOnP jsSpace s).filter fun w => decide (0 < w.length)

/-! ### Levenshtein distance

`levenshteinDistance` in the source builds the full dynamic-programming
table row by row: row `j` holds, at index `i`, the edit distance between the
first `i` characters of `str1` and the first `j` characters of `str2`. Row 0
is `0, 1, ..., str1.length` and each subsequent row is produced from the
previous one by the usual `min(left + 1, up + 1, diag + indicator)` rule.
The embedding computes exactly these rows. -/

/-- One pass along a row: given the remaining characters of `str1`, the
remaining entries of the previous row, the previous-row entry diagonally up
and left, and the entry just written to the left, produce the rest of the new
row. -/
def levRowGo (c2 : Char) : List Char → List ℕ → ℕ → ℕ → List ℕ
  | [], _, _, _ => []
  | c1 :: cs, prevRest, diag, left =>
    let up := prevRest.headD 0
    let cur := min (min (left + 1) (up + 1)) (diag + (if c1 = c2 then 0 else 1))
    cur :: levRowGo c2 cs prevRest.tail up cur

/-- Produce the next row of the table from the previous row, for one
character `c2` of `str2`. The first entry of row `j` is `j`, obtained here as
the previous first entry plus one. -/
def levStep (str1 : List Char) (prev : List ℕ) (c2 : Char) : List ℕ :=
  let h := prev.headD 0
  (h + 1) :: levRowGo c2 str1 prev.tail h (h + 1)

/-- `levenshteinDistance(str1, str2)` from the source: fold the row update
over `str2` starting from row `0, 1, ..., str1.length` and read the last
entry of the final row. -/
def levenshteinDistance (str1 str2 : List Char) : ℕ :=
  (str2.foldl (levStep str1) (List.range (str1.length + 1))).getLastD 0

/-! ### The fuzzy matcher -/

/-- `textWord.startsWith(searchWord)` viewed with the pattern first:
`startsW p s` holds when `p` is an initial segment of `s`. -/
def startsW : List Char → List Char → Bool
  | [], _ => true
  | _ :: _, [] => false
  | p :: ps, c :: cs => p == c && startsW ps cs

/-- `textWord.includes(searchWord)`: `containsW p s` holds when `p` occurs
contiguously somewhere in `s`. -/
def containsW (pat : List Char) : List Char → Bool
  | [] => pat.isEmpty
  | c :: cs => startsW pat (c :: cs) || containsW pat cs

/-- The per-token test of `fuzzySearch`: exact equality, then a
starts-with test, then a substring test for query tokens longer than 2, then
an edit-distance test when both tokens are longer than 3, with tolerance
`floor(min(len, len) / 3)`. -/
def tokenMatch (searchWord textWord : List Char) : Bool :=
  if textWord = searchWord then true
  else if startsW searchWord textWord then true
  else if decide (2 < searchWord.length) && containsW searchWord textWord then true
  else if decide (3 < searchWord.length) && decide (3 < textWord.length) then
    decide (levenshteinDistance searchWord textWord ≤
      min searchWord.length textWord.length / 3)
  else false

/-- The token list of the query string: the source computes
`searchTerm.toLowerCase().trim()`, strips punctuation, splits on whitespace
and drops empty words. -/
def queryTokens (searchTerm : List Char) : List (List Char) :=
  toksL (cleanL (trimL (lowerL searchTerm)))

/-- The token list of the searched text: as for the query, except that the
source does not trim the text (trimming is irrelevant after tokenization,
but the embedding mirrors the source). -/
def textTokens (taskText : List Char) : List (List Char) :=
  toksL (cleanL (lowerL taskText))

/-- `fuzzySearch(searchTerm, taskText)` from the source: an early `true` when
the query trims to the empty string, otherwise every query token must match
some text token under `tokenMatch`. -/
def fuzzySearch (searchTerm taskText : List Char) : Bool :=
  if (trimL searchTerm).isEmpty then true
  else
    (queryTokens searchTerm).all fun searchWord =>
      (textTokens taskText).any fun textWord => tokenMatch searchWord textWord

/-- `fuzzySearch` on Lean `String` values. -/
def fuzzySearchS (searchTerm taskText : String) : Bool :=
  fuzzySearch searchTerm.data taskText.data

/-! Specification-side predicates for the matcher, written as plain
propositions so that the equivalence with the executable matcher is a
theorem rather than a definition. -/

/-- `p` is an initial segment of `s`. -/
def StartsWithP (p s : List Char) : Prop :=
  ∃ r, s = p ++ r

/-- `p` occurs contiguously in `s`. -/
def ContainsSub (p s : List Char) : Prop :=
  ∃ l r, s = l ++ (p ++ r)

/-- The four ways a query token can match a text token, as stated by the
specification: exact equality; the text token starts with the query token;
the query token is longer than 2 and occurs as a substring; both tokens are
longer than 3 and their edit distance is at most a third of the shorter
length. -/
def TokenMatches (sw tw : List Char) : Prop :=
  tw = sw ∨ StartsWithP sw tw ∨ (2 < sw.length ∧ ContainsSub sw tw) ∨
    (3 < sw.length ∧ 3 < tw.length ∧
      levenshteinDistance sw tw ≤ min sw.length tw.length / 3)

/-- The normalization the specification text describes: it says characters
outside alphanumeric and whitespace are stripped, which keeps strictly fewer
characters than the `[^\w\s]` replace of the source, because `\w` also keeps
the underscore. Used to compare the specification wording with the code. -/
def specClean (s : List Char) : List Char :=
  s.filter fun c => c.isAlphanum || jsSpace c

/-- Token list under the normalization described by the specification text. -/
def specTokens (s : List Char) : List (List Char) :=
  toksL (specClean (trimL (lowerL s)))

/-! ### Calendar date arithmetic

`new Date(y, m, d)` normalizes arbitrary integer month and day arguments:
the month overflows into the year and the day counts from day 1 of the
normalized month. Dates are represented by their proleptic Gregorian day
number (days since 1970-01-01), the representation in which the ECMAScript
`Date` operations are specified. -/

/-- Gregorian leap-year test, as `Date` implements it. The source never
tests leap years itself; it relies on `Date` month arithmetic. -/
def isLeapYear (y : ℤ) : Bool :=
  y % 4 == 0 && (y % 100 != 0 || y % 400 == 0)

/-- Number of days of the (0-based, already normalized) month `m` of year
`y`. -/
def monthLen (y : ℤ) (m : ℕ) : ℕ :=
  if m = 1 then (if isLeapYear y then 29 else 28)
  else if m = 3 ∨ m = 5 ∨ m = 8 ∨ m = 10 then 30
  else 31

/-- Year component after `Date` month normalization of `(y, m)`. -/
def normYear (y m : ℤ) : ℤ :=
  y + m.fdiv 12

/-- Month component (0-based, in `0..11`) after `Date` month normalization. -/
def normMonth (m : ℤ) : ℕ :=
  (m.emod 12).toNat

/-- Number of days of month `m` (0-based, arbitrary integer) of year `y`,
after `Date` normalization. This models the idiom
`new Date(year, month + 1, 0).getDate()` the source uses: day 0 of a month
is the last day of the month before it. -/
def monthDays (y m : ℤ) : ℕ :=
  monthLen (normYear y m) (normMonth m)

/-- Day number (days since 1970-01-01) of the calendar date `(y, m, d)` with
`m` a 1-based month in `1..12`; `d` may be any integer and is counted from
day 1 of the month, exactly as `Date` does. Standard civil-from-days
arithmetic for the proleptic Gregorian calendar. -/
def civilDays (y m d : ℤ) : ℤ :=
  let y2 := if m ≤ 2 then y - 1 else y
  let era := y2.fdiv 400
  let yoe := y2 - era * 400
  let mp := (m + 9).emod 12
  let doy := (153 * mp + 2).fdiv 5 + d - 1
  let doe := yoe * 365 + yoe.fdiv 4 - yoe.fdiv 100 + doy
  era * 146097 + doe - 719468

/-- Day number of `new Date(y, m, d)` with a 0-based month `m` and day `d`,
both arbitrary integers, after `Date` normalization. -/
def jsDate (y m d : ℤ) : ℤ :=
  civilDays (normYear y m) ((normMonth m : ℤ) + 1) d

/-- `.getDay()` of a day number: 0 = Sunday .. 6 = Saturday. Day 0
(1970-01-01) was a Thursday. -/
def jsGetDay (day : ℤ) : ℕ :=
  ((day + 4).emod 7).toNat

/-! ### The month grid (`getDaysInMonth` and `renderCalendar`)

`getDaysInMonth` computes `daysInMonth`, the weekday of the 1st, the list of
leading cells taken from the previous month and the list of trailing cells
from the next month; `renderCalendar` renders leading cells, then one cell
per day of the current month, then trailing cells. The cell lists below
carry the day number of each cell; `buildMonthGrid` tags each cell with its
`inCurrentMonth` flag exactly as the renderer styles it. -/

/-- `startingDayOfWeek` from the source: the weekday index of the first day
of month `m` of year `y`. -/
def startWeekday (y m : ℤ) : ℕ :=
  jsGetDay (jsDate y m 1)

/-- `prevMonthDays` from the source: `new Date(year, month - 1, 0).getDate()`.
Note that day 0 of month `m - 1` is the last day of month `m - 2`, so this
is the length of the month two months before `m`, not of the previous
month; the faithfulness of this line to the source is what claim C4 is
about. -/
def prevMonthDaysCount (y m : ℤ) : ℕ :=
  monthDays y (m - 2)

/-- `prevMonthDaysToShow` from the source: for `i = startingDayOfWeek - 1`
down to `0` it pushes `new Date(year, month - 1, prevMonthDays - i)`; with
`j = startingDayOfWeek - 1 - i` the pushed day is
`prevMonthDays - startingDayOfWeek + 1 + j`. -/
def prevMonthCells (y m : ℤ) : List ℤ :=
  (List.range (startWeekday y m)).map fun (j : ℕ) =>
    jsDate y (m - 1)
      ((prevMonthDaysCount y m : ℤ) - (startWeekday y m : ℤ) + 1 + (j : ℤ))

/-- The body of the grid: `new Date(year, month, d)` for
`d = 1 .. daysInMonth`. -/
def currentMonthCells (y m : ℤ) : List ℤ :=
  (List.range (monthDays y m)).map fun (d : ℕ) => jsDate y m ((d : ℤ) + 1)

/-- `nextMonthDaysToShow` from the source: `new Date(year, month + 1, i)` for
`i = 1 .. 42 - (startingDayOfWeek + daysInMonth)`. -/
def nextMonthCells (y m : ℤ) : List ℤ :=
  (List.range (42 - (startWeekday y m + monthDays y m))).map fun (i : ℕ) =>
    jsDate y (m + 1) ((i : ℤ) + 1)

/-- One cell of the rendered month grid: its date and whether the renderer
styles it as a day of the current month. -/
structure DayCell where
  date : ℤ
  inCurrentMonth : Bool
deriving DecidableEq

/-- The 42-cell grid in render order: leading previous-month cells (styled
`prev-month`), one cell per day of the current month (styled
`current-month`), trailing next-month cells (styled `next-month`). -/
def buildMonthGrid (y m : ℤ) : List DayCell :=
  ((prevMonthCells y m).map fun d => DayCell.mk d false) ++
    ((currentMonthCells y m).map fun d => DayCell.mk d true) ++
    ((nextMonthCells y m).map fun d => DayCell.mk d false)

/-! ### The task model (`src/types/Task.ts`) -/

/-- Task priority, one of the three literal values of the source union
type. -/
inductive TaskPriority where
  | low
  | medium
  | high
deriving DecidableEq

/-- The `Task` record. Timestamps (`deadline`, `createdAt`, `completedAt`)
are stored by the source as ISO strings and parsed with `new Date(...)`
wherever they are used; the embedding stores the parsed instant directly,
as integer milliseconds since the epoch. Optional fields are `Option`. -/
structure Task where
  id : String
  title : String
  description : String
  deadline : ℤ
  completed : Bool
  createdAt : ℤ
  completedAt : Option ℤ
  category : Option String
  estimatedTime : Option ℚ
  priority : Option TaskPriority
deriving DecidableEq

/-! ### Storage utilities (`src/utils/storage.ts`) -/

/-- `isOverdue(task)` from the source, with the ambient clock `new Date()`
passed explicitly: a completed task is never overdue; an incomplete task is
overdue exactly when its deadline instant is strictly before `now`. -/
def isOverdue (task : Task) (now : ℤ) : Bool :=
  if task.completed then false
  else decide (task.deadline < now)

/-- `loadTasks()` from the source, with the storage boundary made explicit:
`stored` is the result of `localStorage.getItem` (`none` when the key is
absent) and `parse` is the outcome of `JSON.parse` on a present string
(`Except.error` when it throws, which the source catches, logs and turns
into the empty list). The source guards with the truthiness of `stored`, so
a present empty string also yields the empty list without parsing. -/
def loadTasks (stored : Option String)
    (parse : String → Except String (List Task)) : List Task :=
  match stored with
  | none => []
  | some s =>
    if s = "" then []
    else
      match parse s with
      | .ok tasks => tasks
      | .error _ => []

/-- `saveTasks(tasks)` from the source, with the storage boundary made
explicit: `write tasks` is the outcome of `localStorage.setItem` on the
serialized list. A write failure is caught and logged; the caller always
gets a normal return. -/
def saveTasks (tasks : List Task)
    (write : List Task → Except String Unit) : Except String Unit :=
  match write tasks with
  | .ok u => .ok u
  | .error _ => .ok ()

/-! ### Task list operations (`TaskList` in `AnalyticsView.tsx`) -/

/-- The add/edit form state. The `deadline` field of the form is a date
input whose empty state is falsy in the source guard; it is modelled as
`Option`. `estimatedTime` is likewise empty-or-parsed. `priority` always
holds one of the three literals. -/
structure TaskFormData where
  title : String
  description : String
  deadline : Option ℤ
  category : String
  priority : TaskPriority
  estimatedTime : Option ℚ

/-- `trim` on a Lean string through the char-list model. -/
def trimS (s : String) : String :=
  ⟨trimL s.data⟩

/-- The add branch of `handleSubmit`: if the trimmed title or the deadline
is empty nothing happens; otherwise a new task is appended with
`completed = false`, `createdAt = now`, no `completedAt` field, and the
optional fields normalized exactly as the source does (`category` empty
string becomes absent, `estimatedTime` empty becomes absent). -/
def addTask (tasks : List Task) (form : TaskFormData) (newId : String)
    (now : ℤ) : List Task :=
  if trimS form.title = "" then tasks
  else
    match form.deadline with
    | none => tasks
    | some d =>
      tasks ++ [{ id := newId
                  title := trimS form.title
                  description := trimS form.description
                  deadline := d
                  completed := false
                  createdAt := now
                  completedAt := none
                  category := if form.category = "" then none else some form.category
                  estimatedTime := form.estimatedTime
                  priority := some form.priority }]

/-- The edit branch of `handleSubmit`: the task with the edited id gets the
form fields; `completed`, `completedAt`, `id` and `createdAt` are carried
over unchanged by the spread. -/
def editTaskFields (tasks : List Task) (editingId : String)
    (form : TaskFormData) : List Task :=
  if trimS form.title = "" then tasks
  else
    match form.deadline with
    | none => tasks
    | some d =>
      tasks.map fun task =>
        if task.id = editingId then
          { task with
              title := trimS form.title
              description := trimS form.description
              deadline := d
              category := if form.category = "" then none else some form.category
              priority := some form.priority
              estimatedTime := form.estimatedTime }
        else task

/-- `toggleTaskCompletion(taskId)` from the source, with the ambient clock
explicit: the matching task flips `completed`, and `completedAt` becomes the
current instant when the task becomes completed and is cleared when it
becomes incomplete. -/
def toggleTaskCompletion (tasks : List Task) (taskId : String)
    (now : ℤ) : List Task :=
  tasks.map fun task =>
    if task.id = taskId then
      { task with
          completed := !task.completed
          completedAt := if !task.completed then some now else none }
    else task

/-- The confirmed branch of `deleteTask(taskId)`: remove the task with the
given id. -/
def deleteTask (tasks : List Task) (taskId : String) : List Task :=
  tasks.filter fun task => task.id != taskId

/-- The invariant of claim C7: a task carries a completion timestamp exactly
when it is completed. -/
def CompletedAtConsistent (tasks : List Task) : Prop :=
  ∀ t ∈ tasks, t.completedAt.isSome = t.completed

/-! ### The analytics aggregator (`AnalyticsView`) -/

/-- `Math.round`: round half up (ties toward positive infinity), as the
ECMAScript function behaves on all finite values. -/
def jsRound (x : ℚ) : ℤ :=
  ⌊x + 1 / 2⌋

/-- Milliseconds in one day, the divisor `1000 * 60 * 60 * 24` of the
source. -/
def msPerDay : ℤ := 86400000

/-- The snapshot computed by the `useMemo` block of `AnalyticsView`. -/
structure AnalyticsSnapshot where
  total : ℕ
  completed : ℕ
  pending : ℕ
  overdue : ℕ
  completionRate : ℤ
  overdueRate : ℤ
  recentlyCompleted : ℕ
  recentlyCreated : ℕ
  avgCompletionTime : ℚ
  recentTasks : List Task

/-- `computeAnalytics(tasks, now)`: the aggregation of `AnalyticsView`, with
the ambient clock explicit. Rates guard the empty list and round half up;
the seven-day and thirty-day windows are `now` minus 7 resp. 30 days; the
average completion time averages `Math.ceil` day differences over the
completed tasks that carry a `completedAt`, then is rounded to one
decimal. -/
def computeAnalytics (tasks : List Task) (now : ℤ) : AnalyticsSnapshot :=
  let total := tasks.length
  let completed := (tasks.filter fun task => task.completed).length
  let pending := (tasks.filter fun task => !task.completed).length
  let overdue := (tasks.filter fun task => isOverdue task now).length
  let completionRate : ℤ :=
    if 0 < total then jsRound ((completed : ℚ) / (total : ℚ) * 100) else 0
  let overdueRate : ℤ :=
    if 0 < total then jsRound ((overdue : ℚ) / (total : ℚ) * 100) else 0
  let sevenDaysAgo := now - 7 * msPerDay
  let recentlyCompleted :=
    (tasks.filter fun task =>
      task.completed &&
        match task.completedAt with
        | some c => decide (sevenDaysAgo ≤ c)
        | none => false).length
  let recentlyCreated :=
    (tasks.filter fun task => decide (sevenDaysAgo ≤ task.createdAt)).length
  let completedTasks :=
    tasks.filter fun task => task.completed && task.completedAt.isSome
  let avgCompletionTime : ℚ :=
    if 0 < completedTasks.length then
      ((completedTasks.map fun task =>
          ((⌈((task.completedAt.getD 0 - task.createdAt : ℤ) : ℚ) / (msPerDay : ℚ)⌉ : ℤ) : ℚ)).sum) /
        (completedTasks.length : ℚ)
    else 0
  let thirtyDaysAgo := now - 30 * msPerDay
  let recentTasks := tasks.filter fun task => decide (thirtyDaysAgo ≤ task.createdAt)
  { total := total
    completed := completed
    pending := pending
    overdue := overdue
    completionRate := completionRate
    overdueRate := overdueRate
    recentlyCompleted := recentlyCompleted
    recentlyCreated := recentlyCreated
    avgCompletionTime := (jsRound (avgCompletionTime * 10) : ℚ) / 10
    recentTasks := recentTasks }

/-! ### Sorting (`sortTasks` in `src/utils/storage.ts`)

`Array.prototype.sort` with a comparator reorders the copied array into an
order agreeing with the comparator; the claim under verification is about
the result being a permutation, which holds for any comparison sort, so the
embedding uses insertion sort with the boolean version of each
comparator. -/

/-- Insert a task into a list sorted by `le`. -/
def insertLe (le : Task → Task → Bool) (a : Task) : List Task → List Task
  | [] => [a]
  | b :: rest => if le a b then a :: b :: rest else b :: insertLe le a rest

/-- Comparison sort by `le` (insertion sort). -/
def sortByLe (le : Task → Task → Bool) (l : List Task) : List Task :=
  l.foldr (insertLe le) []

/-- Comparator of the `deadline` case:
`new Date(a.deadline).getTime() - new Date(b.deadline).getTime() <= 0`. -/
def deadlineLe (a b : Task) : Bool :=
  decide (a.deadline ≤ b.deadline)

/-- Comparator of the `created` case: newest creation first. -/
def createdLe (a b : Task) : Bool :=
  decide (b.createdAt ≤ a.createdAt)

/-- Comparator of the `title` case. `localeCompare` is a locale-dependent
total preorder on strings; it is modelled by byte-wise comparison of the
code points, which is a total preorder as well. The claim under
verification (permutation) does not depend on which total preorder is
used. -/
def titleLe (a b : Task) : Bool :=
  listCharLe a.title.data b.title.data
where
  /-- Lexicographic comparison of char lists by code point. -/
  listCharLe : List Char → List Char → Bool
    | [], _ => true
    | _ :: _, [] => false
    | a :: as_, b :: bs =>
      if a.toNat < b.toNat then true
      else if b.toNat < a.toNat then false
      else listCharLe as_ bs

/-- Comparator of the `status` case: incomplete before completed, ties by
deadline. -/
def statusLe (a b : Task) : Bool :=
  if a.completed = b.completed then decide (a.deadline ≤ b.deadline)
  else !a.completed

/-- `sortTasks(tasks, sort)` from the source: copy, then sort by the
comparator selected by the sort key; an unrecognized key returns the copy
unchanged. -/
def sortTasks (tasks : List Task) (sort : String) : List Task :=
  match sort with
  | "deadline" => sortByLe deadlineLe tasks
  | "created" => sortByLe createdLe tasks
  | "title" => sortByLe titleLe tasks
  | "status" => sortByLe statusLe tasks
  | _ => tasks

/-! ### Concrete fixtures used by witnesses -/

/-- The end-to-end scenario task of the specification: deadline
2024-01-10T00:00:00Z (epoch milliseconds 1704844800000), not completed. -/
def taskJan10 : Task :=
  { id := "e2e", title := "Report", description := "", deadline := 1704844800000,
    completed := false, createdAt := 1704672000000, completedAt := none,
    category := none, estimatedTime := none, priority := none }

/-- The same task marked completed. -/
def taskJan10Done : Task :=
  { taskJan10 with completed := true, completedAt := some 1704931200000 }

/-- Epoch milliseconds of 2024-01-11T00:00:00Z, the evaluation instant of the
end-to-end scenario. -/
def jan11ms : ℤ := 1704931200000

/-- A task list of 10 tasks of which exactly the first 3 are completed. -/
def tenTasks : List Task :=
  (List.range 10).map fun i =>
    { id := "t", title := "Task", description := "", deadline := 1000000,
      completed := decide (i < 3),
      createdAt := 0,
      completedAt := if i < 3 then some 500000 else none,
      category := none, estimatedTime := none, priority := none }

/-- A single pending task used by the C7 witness. -/
def taskW : Task :=
  { id := "1", title := "A", description := "", deadline := 50,
    completed := false, createdAt := 0, completedAt := none,
    category := none, estimatedTime := none, priority := none }

/-- A valid form submission used by the C7 witness. -/
def formW : TaskFormData :=
  { title := "Buy milk", description := "", deadline := some 100,
    category := "", priority := .medium, estimatedTime := none }

/-! ### Helper lemmas: calendar bounds -/

lemma startWeekday_lt (y m : ℤ) : startWeekday y m < 7 := by
  have h1 : 0 ≤ (jsDate y m 1 + 4).emod 7 := Int.emod_nonneg _ (by norm_num)
  have h2 : (jsDate y m 1 + 4).emod 7 < 7 := Int.emod_lt_of_pos _ (by norm_num)
  unfold startWeekday jsGetDay
  omega

lemma monthDays_bounds (y m : ℤ) : 28 ≤ monthDays y m ∧ monthDays y m ≤ 31 := by
  unfold monthDays monthLen
  split <;> split <;> omega

lemma length_prevMonthCells (y m : ℤ) :
    (prevMonthCells y m).length = startWeekday y m := by
  unfold prevMonthCells
  rw [List.length_map, List.length_range]

lemma length_currentMonthCells (y m : ℤ) :
    (currentMonthCells y m).length = monthDays y m := by
  unfold currentMonthCells
  rw [List.length_map, List.length_range]

lemma length_nextMonthCells (y m : ℤ) :
    (nextMonthCells y m).length = 42 - (startWeekday y m + monthDays y m) := by
  unfold nextMonthCells
  rw [List.length_map, List.length_range]

lemma filter_current_of_flag_false (l : List ℤ) :
    ((l.map fun d => DayCell.mk d false).filter fun c => c.inCurrentMonth) = [] := by
  induction l with
  | nil => rfl
  | cons a t ih => simp [ih]

lemma filter_current_of_flag_true (l : List ℤ) :
    ((l.map fun d => DayCell.mk d true).filter fun c => c.inCurrentMonth) =
      l.map fun d => DayCell.mk d true := by
  induction l with
  | nil => rfl
  | cons a t ih => simp [ih]

/-! ### Helper lemmas: insertion sort permutes -/

lemma insertLe_perm (le : Task → Task → Bool) (a : Task) (l : List Task) :
    (insertLe le a l).Perm (a :: l) := by
  induction l with
  | nil => exact List.Perm.refl _
  | cons b rest ih =>
    unfold insertLe
    split
    · exact List.Perm.refl _
    · exact (ih.cons b).trans (List.Perm.swap a b rest)

lemma sortByLe_perm (le : Task → Task → Bool) (l : List Task) :
    (sortByLe le l).Perm l := by
  induction l with
  | nil => exact List.Perm.refl _
  | cons a rest ih => exact (insertLe_perm le a _).trans (ih.cons a)

/-! ### Helper lemmas: the fuzzy matcher -/

lemma jsToLower_space {c : Char} (h : jsSpace c = true) : jsToLower c = c := by
  simp only [jsSpace, Bool.or_eq_true, beq_iff_eq, Bool.and_eq_true,
    decide_eq_true_eq] at h
  unfold jsToLower
  have hn : ¬ (65 ≤ c.toNat ∧ c.toNat ≤ 90) := by omega
  rw [if_neg hn]

lemma all_space_of_trimL_nil {s : List Char} (h : trimL s = []) :
    ∀ c ∈ s, jsSpace c = true := by
  unfold trimL at h
  rw [List.reverse_eq_nil_iff, List.dropWhile_eq_nil_iff] at h
  intro c hc
  rw [← @List.takeWhile_append_dropWhile _ jsSpace s] at hc
  rcases List.mem_append.mp hc with h1 | h2
  · exact List.mem_takeWhile_imp h1
  · exact h c (List.mem_reverse.mpr h2)

lemma trimL_lowerL_nil {q : List Char} (h : trimL q = []) :
    trimL (lowerL q) = [] := by
  have hall : ∀ c ∈ q, jsSpace c = true := all_space_of_trimL_nil h
  have hall2 : ∀ c ∈ lowerL q, jsSpace c = true := by
    intro c hc
    rcases List.mem_map.mp hc with ⟨c0, hc0, rfl⟩
    rw [jsToLower_space (hall c0 hc0)]
    exact hall c0 hc0
  unfold trimL
  rw [List.dropWhile_eq_nil_iff.mpr hall2]
  rfl

lemma queryTokens_of_trimL_nil {q : List Char} (h : trimL q = []) :
    queryTokens q = [] := by
  unfold queryTokens
  rw [trimL_lowerL_nil h]
  rfl

lemma startsW_iff (p s : List Char) : startsW p s = true ↔ StartsWithP p s := by
  induction p generalizing s with
  | nil =>
    constructor
    · intro _
      exact ⟨s, rfl⟩
    · intro _
      rfl
  | cons a ps ih =>
    cases s with
    | nil =>
      constructor
      · intro h
        simp [startsW] at h
      · rintro ⟨r, hr⟩
        simp at hr
    | cons b cs =>
      rw [show startsW (a :: ps) (b :: cs) = (a == b && startsW ps cs) from rfl,
        Bool.and_eq_true, beq_iff_eq, ih]
      constructor
      · rintro ⟨rfl, r, rfl⟩
        exact ⟨r, rfl⟩
      · rintro ⟨r, hr⟩
        injection hr with h1 h2
        exact ⟨h1.symm, r, h2⟩

lemma containsW_iff (p s : List Char) : containsW p s = true ↔ ContainsSub p s := by
  induction s with
  | nil =>
    constructor
    · intro h
      have hp : p = [] := by
        simpa [containsW, List.isEmpty_iff] using h
      exact ⟨[], [], by simp [hp]⟩
    · rintro ⟨l, r, hr⟩
      have h0 := List.append_eq_nil.mp hr.symm
      have h1 := List.append_eq_nil.mp h0.2
      simp [containsW, List.isEmpty_iff, h1.1]
  | cons c cs ih =>
    rw [show containsW p (c :: cs) = (startsW p (c :: cs) || containsW p cs) from rfl,
      Bool.or_eq_true, startsW_iff, ih]
    constructor
    · rintro (⟨r, hr⟩ | ⟨l, r, hr⟩)
      · exact ⟨[], r, by simp [hr]⟩
      · exact ⟨c :: l, r, by simp [hr]⟩
    · rintro ⟨l, r, hr⟩
      cases l with
      | nil =>
        exact Or.inl ⟨r, by simpa using hr⟩
      | cons x xs =>
        rw [List.cons_append] at hr
        injection hr with h1 h2
        exact Or.inr ⟨xs, r, h2⟩

lemma tokenMatch_iff (sw tw : List Char) :
    tokenMatch sw tw = true ↔ TokenMatches sw tw := by
  unfold tokenMatch TokenMatches
  by_cases h1 : tw = sw
  · simp [h1]
  rw [if_neg h1]
  by_cases h2 : startsW sw tw = true
  · rw [if_pos h2]
    exact iff_of_true rfl (Or.inr (Or.inl ((startsW_iff sw tw).mp h2)))
  rw [if_neg h2]
  by_cases h3 : (decide (2 < sw.length) && containsW sw tw) = true
  · rw [if_pos h3]
    rw [Bool.and_eq_true, decide_eq_true_eq] at h3
    exact iff_of_true rfl
      (Or.inr (Or.inr (Or.inl ⟨h3.1, (containsW_iff sw tw).mp h3.2⟩)))
  rw [if_neg h3]
  by_cases h4 : (decide (3 < sw.length) && decide (3 < tw.length)) = true
  · rw [if_pos h4]
    rw [Bool.and_eq_true, decide_eq_true_eq, decide_eq_true_eq] at h4
    rw [decide_eq_true_eq]
    constructor
    · intro hlev
      exact Or.inr (Or.inr (Or.inr ⟨h4.1, h4.2, hlev⟩))
    · rintro (hh | ⟨r, hr⟩ | ⟨hl, hc⟩ | ⟨_, _, hlev⟩)
      · exact absurd hh h1
      · exact absurd ((startsW_iff sw tw).mpr ⟨r, hr⟩) h2
      · refine absurd ?_ h3
        rw [Bool.and_eq_true, decide_eq_true_eq]
        exact ⟨hl, (containsW_iff sw tw).mpr hc⟩
      · exact hlev
  rw [if_neg h4]
  rw [Bool.and_eq_true, decide_eq_true_eq, decide_eq_true_eq] at h4
  constructor
  · intro hfalse
    exact Bool.noConfusion hfalse
  · rintro (hh | ⟨r, hr⟩ | ⟨hl, hc⟩ | ⟨ha, hb, _⟩)
    · exact absurd hh h1
    · exact absurd ((startsW_iff sw tw).mpr ⟨r, hr⟩) h2
    · refine absurd ?_ h3
      rw [Bool.and_eq_true, decide_eq_true_eq]
      exact ⟨hl, (containsW_iff sw tw).mpr hc⟩
    · exact absurd ⟨ha, hb⟩ h4

/-! ### Helper lemmas: analytics projections -/

lemma computeAnalytics_completionRate_def (tasks : List Task) (now : ℤ) :
    (computeAnalytics tasks now).completionRate =
      if 0 < tasks.length then
        jsRound (((tasks.filter fun task => task.completed).length : ℚ) /
          (tasks.length : ℚ) * 100)
      else 0 := rfl

lemma computeAnalytics_overdueRate_def (tasks : List Task) (now : ℤ) :
    (computeAnalytics tasks now).overdueRate =
      if 0 < tasks.length then
        jsRound (((tasks.filter fun task => isOverdue task now).length : ℚ) /
          (tasks.length : ℚ) * 100)
      else 0 := rfl

/-! ### Claim C1 -/

/-- C1: for every year and every month (any integer month index, covering the
0-11 range and the December-to-January rollover), the month grid has exactly
42 cells; the cells rendered as current-month days number exactly the actual
day count of the month, which is always one of 28, 29, 30, 31. The two
closing conjuncts check February of a leap and of a non-leap year. -/
theorem buildMonthGrid_shape :
    (∀ y m : ℤ,
      (buildMonthGrid y m).length = 42 ∧
      ((buildMonthGrid y m).filter fun c => c.inCurrentMonth).length = monthDays y m ∧
      (monthDays y m = 28 ∨ monthDays y m = 29 ∨ monthDays y m = 30 ∨
        monthDays y m = 31)) ∧
    monthDays 2024 1 = 29 ∧ monthDays 2023 1 = 28 := by
  refine ⟨fun y m => ?_, by decide, by decide⟩
  have hw := startWeekday_lt y m
  have hb := monthDays_bounds y m
  refine ⟨?_, ?_, by omega⟩
  · unfold buildMonthGrid
    rw [List.length_append, List.length_append, List.length_map, List.length_map,
      List.length_map, length_prevMonthCells, length_currentMonthCells,
      length_nextMonthCells]
    omega
  · unfold buildMonthGrid
    rw [List.filter_append, List.filter_append, filter_current_of_flag_false,
      filter_current_of_flag_true, filter_current_of_flag_false]
    rw [List.nil_append, List.append_nil, List.length_map, length_currentMonthCells]

/-! ### Claim C9 -/

/-- C9 counterexample: in the March 2025 grid, every one of the six rendered
weeks contains a current-month cell, so no full 7-cell row consists entirely
of adjacent-month days — neither on the leading side nor on the trailing
side, refuting the claim that at least one such full row exists on each
side. -/
theorem monthGrid_march2025_no_full_adjacent_row :
    ¬ ∃ r ∈ List.range 6,
      (((buildMonthGrid 2025 2).drop (7 * r)).take 7).all
        (fun c => !c.inCurrentMonth) = true := by
  decide

/-- C9 amended: the leading side of the grid never contains a full 7-cell
adjacent-month row (it has `startingDayOfWeek ≤ 6` cells), and the trailing
side has between 5 and 14 adjacent-month cells, hence between zero and two
full rows — never more than two, but possibly none. -/
theorem monthGrid_adjacent_row_bounds :
    ∀ y m : ℤ,
      (prevMonthCells y m).length ≤ 6 ∧
      5 ≤ (nextMonthCells y m).length ∧ (nextMonthCells y m).length ≤ 14 := by
  intro y m
  have hw := startWeekday_lt y m
  have hb := monthDays_bounds y m
  rw [length_prevMonthCells, length_nextMonthCells]
  omega

/-! ### Claim C4 -/

/-- C4: evaluation of the leading-cell computation at the failing input
April 2024 (`year = 2024`, `month = 3`). April 1, 2024 is a Monday, so there
is exactly one leading cell, and the claim requires it to be the day
immediately preceding April 1, namely March 31, 2024. The code instead
produces March 29, 2024, because `prevMonthDays` is read from
`new Date(year, month - 1, 0)` — the last day of February — while the dates
are built in March. -/
theorem prevMonthCells_april2024_bug :
    startWeekday 2024 3 = 1 ∧
    prevMonthCells 2024 3 = [jsDate 2024 2 29] ∧
    jsDate 2024 3 1 - 1 = jsDate 2024 2 31 ∧
    prevMonthCells 2024 3 ≠ [jsDate 2024 3 1 - 1] := by
  decide

/-! ### Claim C3 -/

/-- C3 counterexample: `fuzzySearch("tset", "test")` does not return
`true`. -/
theorem fuzzySearch_tset_test_cex :
    ¬ fuzzySearchS "tset" "test" = true := by
  decide

/-- C3 amended: `fuzzySearch("tset", "test")` returns `false`: the
Levenshtein distance between the two length-4 tokens is 2 (a transposition
costs two unit edits), which exceeds the tolerance
`floor(min(4, 4) / 3) = 1`, and none of the other three match rules
applies. -/
theorem fuzzySearch_tset_test_false :
    fuzzySearchS "tset" "test" = false ∧
    levenshteinDistance "tset".data "test".data = 2 ∧
    min "tset".data.length "test".data.length / 3 = 1 := by
  decide

/-! ### Claim C6 -/

/-- C6: a completed task is never overdue, whatever the evaluation instant;
an incomplete task is overdue exactly when its deadline instant is strictly
before the evaluation instant. -/
theorem isOverdue_spec (task : Task) (now : ℤ) :
    (task.completed = true → isOverdue task now = false) ∧
    (task.completed = false → (isOverdue task now = true ↔ task.deadline < now)) := by
  constructor
  · intro h
    simp [isOverdue, h]
  · intro h
    simp [isOverdue, h]

/-- C6 witness: the end-to-end scenario of the specification. The task with
deadline 2024-01-10, not completed, evaluated at 2024-01-11, is overdue; the
completed variant is not. -/
theorem isOverdue_spec_witness :
    isOverdue taskJan10 jan11ms = true ∧ isOverdue taskJan10Done jan11ms = false := by
  constructor
  · exact ((isOverdue_spec taskJan10 jan11ms).2 rfl).mpr (by decide)
  · exact (isOverdue_spec taskJan10Done jan11ms).1 rfl

/-! ### Claim C8 -/

/-- C8: `loadTasks` returns the empty list whenever the stored value is
absent (or falsy) or the parse fails, and `saveTasks` always returns
normally, whatever the outcome of the underlying write. -/
theorem storage_error_handling :
    (∀ (stored : Option String) (parse : String → Except String (List Task)),
      (stored = none ∨ stored = some "" ∨
        (∃ s e, stored = some s ∧ parse s = .error e)) →
      loadTasks stored parse = []) ∧
    (∀ (tasks : List Task) (write : List Task → Except String Unit),
      saveTasks tasks write = Except.ok ()) := by
  constructor
  · rintro stored parse (rfl | rfl | ⟨s, e, rfl, hp⟩)
    · rfl
    · rfl
    · by_cases hs : s = "" <;> simp [loadTasks, hs, hp]
  · intro tasks write
    unfold saveTasks
    rcases h : write tasks with u | e
    · cases u
      rfl
    · rfl

/-- C8 witness: a present but unparsable stored value loads as the empty
list, and a failing write (for example a quota error) still returns
normally. -/
theorem storage_error_handling_witness :
    loadTasks (some "not json") (fun s => Except.error s) = [] ∧
    saveTasks [] (fun _ => Except.error "QuotaExceededError") = Except.ok () := by
  constructor
  · exact storage_error_handling.1 (some "not json") (fun s => Except.error s)
      (Or.inr (Or.inr ⟨"not json", "not json", rfl, rfl⟩))
  · exact storage_error_handling.2 [] (fun _ => Except.error "QuotaExceededError")

/-! ### Claim C10 -/

/-- C10: for every task list and every sort key — the four recognized keys
and any other string — `sortTasks` returns a permutation of its input (same
tasks with the same multiplicities). The embedding is pure, so the input
list itself is unchanged by construction, mirroring the source, which sorts
a spread copy of the array. -/
theorem sortTasks_perm (tasks : List Task) (sort : String) :
    (sortTasks tasks sort).Perm tasks := by
  unfold sortTasks
  split
  · exact sortByLe_perm _ _
  · exact sortByLe_perm _ _
  · exact sortByLe_perm _ _
  · exact sortByLe_perm _ _
  · exact List.Perm.refl _

/-! ### Claim C2 -/

/-- C2 counterexample: the claim describes the normalization as stripping
every character outside alphanumeric and whitespace, but the source strips
`[^\w\s]`, and `\w` also keeps the underscore. For the query `"_"` and the
text `"x"`, the normalization described by the claim leaves zero query
tokens, so the claim requires a vacuous match (`true`); the code keeps the
token `"_"`, which matches nothing in `"x"`, and returns `false`. -/
theorem fuzzySearch_underscore_cex :
    ¬ (fuzzySearchS "_" "x" = true ↔
      ∀ sw ∈ specTokens "_".data, ∃ tw ∈ specTokens "x".data,
        TokenMatches sw tw) := by
  intro h
  have h2 : fuzzySearchS "_" "x" = true := by
    refine h.mpr ?_
    intro sw hsw
    have he : specTokens "_".data = [] := by decide
    rw [he] at hsw
    exact absurd hsw (List.not_mem_nil sw)
  have h3 : fuzzySearchS "_" "x" = false := by decide
  rw [h3] at h2
  exact Bool.noConfusion h2

/-- C2 amended: `fuzzySearch(query, text)` returns `true` if and only if,
after normalizing both strings (lowercase, strip every character outside
word characters — alphanumeric or underscore — and whitespace, split on
whitespace, discard empty tokens), every query token matches at least one
text token under exact equality, a starts-with test, a substring test for
query tokens of length above 2, or the edit-distance test for token pairs
both of length above 3 with tolerance a third of the shorter length. An
empty or whitespace-only query, or one whose normalization leaves zero
tokens, matches every text, since the quantification is then vacuous. -/
theorem fuzzySearch_iff_tokens (searchTerm taskText : String) :
    fuzzySearchS searchTerm taskText = true ↔
      ∀ sw ∈ queryTokens searchTerm.data,
        ∃ tw ∈ textTokens taskText.data, TokenMatches sw tw := by
  unfold fuzzySearchS fuzzySearch
  split
  · rename_i h
    rw [List.isEmpty_iff] at h
    refine iff_of_true rfl ?_
    intro sw hsw
    rw [queryTokens_of_trimL_nil h] at hsw
    exact absurd hsw (List.not_mem_nil sw)
  · rw [List.all_eq_true]
    constructor
    · intro h sw hsw
      rcases List.any_eq_true.mp (h sw hsw) with ⟨tw, htw, hm⟩
      exact ⟨tw, htw, (tokenMatch_iff sw tw).mp hm⟩
    · intro h sw hsw
      rcases h sw hsw with ⟨tw, htw, hm⟩
      exact List.any_eq_true.mpr ⟨tw, htw, (tokenMatch_iff sw tw).mpr hm⟩

/-! ### Claim C5 -/

/-- C5: on the empty task list the completion rate, the overdue rate and the
average completion time are all 0, the zero-total division being guarded; on
a non-empty list the completion rate is `round(100 * completed / total)` and
the overdue rate is `round(100 * overdue / total)`, rounding half up
(`jsRound`). -/
theorem computeAnalytics_rates :
    (∀ now : ℤ,
      (computeAnalytics [] now).completionRate = 0 ∧
      (computeAnalytics [] now).overdueRate = 0 ∧
      (computeAnalytics [] now).avgCompletionTime = 0) ∧
    (∀ (tasks : List Task) (now : ℤ), tasks ≠ [] →
      (computeAnalytics tasks now).completionRate =
        jsRound (100 * ((tasks.countP fun task => task.completed : ℕ) : ℚ) /
          (tasks.length : ℚ)) ∧
      (computeAnalytics tasks now).overdueRate =
        jsRound (100 * ((tasks.countP fun task => isOverdue task now : ℕ) : ℚ) /
          (tasks.length : ℚ))) := by
  constructor
  · intro now
    refine ⟨rfl, rfl, ?_⟩
    have h : (computeAnalytics [] now).avgCompletionTime =
        (jsRound ((0 : ℚ) * 10) : ℚ) / 10 := rfl
    rw [h]
    norm_num [jsRound]
  · intro tasks now h
    have hl : 0 < tasks.length := List.length_pos.mpr h
    constructor
    · rw [computeAnalytics_completionRate_def, if_pos hl,
        List.countP_eq_length_filter]
      congr 1
      ring
    · rw [computeAnalytics_overdueRate_def, if_pos hl,
        List.countP_eq_length_filter]
      congr 1
      ring

/-- C5 witness: a concrete list of 10 tasks with exactly 3 completed has
completion rate 30. -/
theorem computeAnalytics_rates_witness :
    (computeAnalytics tenTasks 0).completionRate = 30 := by
  have h := computeAnalytics_rates.2 tenTasks 0 (by decide)
  rw [h.1]
  have hc : (tenTasks.countP fun task => task.completed) = 3 := by decide
  have hl : tenTasks.length = 10 := by decide
  rw [hc, hl]
  unfold jsRound
  norm_num

/-! ### Claim C7 -/

/-- C7: every operation producing a new task collection — form submission in
add mode, form submission in edit mode, completion toggling, deletion —
preserves the invariant that a task carries `completedAt` exactly when it is
completed; a task appended by the add path is created incomplete with no
`completedAt`; and toggling sets `completedAt` to the toggle instant when a
task becomes completed and clears it when it becomes incomplete. -/
theorem taskOps_completedAt (tasks : List Task) (form : TaskFormData)
    (newId : String) (now : ℤ) (editId taskId : String)
    (h : CompletedAtConsistent tasks) :
    CompletedAtConsistent (addTask tasks form newId now) ∧
    CompletedAtConsistent (editTaskFields tasks editId form) ∧
    CompletedAtConsistent (toggleTaskCompletion tasks taskId now) ∧
    CompletedAtConsistent (deleteTask tasks taskId) ∧
    (∀ t ∈ addTask tasks form newId now, t ∉ tasks →
      t.completed = false ∧ t.completedAt = none) ∧
    (∀ t ∈ tasks, t.id = taskId → t.completed = false →
      { t with completed := true, completedAt := some now } ∈
        toggleTaskCompletion tasks taskId now) ∧
    (∀ t ∈ tasks, t.id = taskId → t.completed = true →
      { t with completed := false, completedAt := none } ∈
        toggleTaskCompletion tasks taskId now) := by
  refine ⟨?_, ?_, ?_, ?_, ?_, ?_, ?_⟩
  · intro t ht
    unfold addTask at ht
    split at ht
    · exact h t ht
    · rcases hd : form.deadline with _ | d
      · rw [hd] at ht
        exact h t ht
      · rw [hd] at ht
        rcases List.mem_append.mp ht with h1 | h2
        · exact h t h1
        · rw [List.mem_singleton] at h2
          subst h2
          rfl
  · intro t ht
    unfold editTaskFields at ht
    split at ht
    · exact h t ht
    · rcases hd : form.deadline with _ | d
      · rw [hd] at ht
        exact h t ht
      · rw [hd] at ht
        rcases List.mem_map.mp ht with ⟨t0, ht0, rfl⟩
        by_cases hid : t0.id = editId
        · simp only [if_pos hid]
          exact h t0 ht0
        · simp only [if_neg hid]
          exact h t0 ht0
  · intro t ht
    unfold toggleTaskCompletion at ht
    rcases List.mem_map.mp ht with ⟨t0, ht0, rfl⟩
    by_cases hid : t0.id = taskId
    · simp only [if_pos hid]
      cases hc : t0.completed <;> simp [hc]
    · simp only [if_neg hid]
      exact h t0 ht0
  · intro t ht
    unfold deleteTask at ht
    exact h t (List.mem_filter.mp ht).1
  · intro t ht hnot
    unfold addTask at ht
    split at ht
    · exact absurd ht hnot
    · rcases hd : form.deadline with _ | d
      · rw [hd] at ht
        exact absurd ht hnot
      · rw [hd] at ht
        rcases List.mem_append.mp ht with h1 | h2
        · exact absurd h1 hnot
        · rw [List.mem_singleton] at h2
          subst h2
          exact ⟨rfl, rfl⟩
  · intro t ht hid hc
    unfold toggleTaskCompletion
    refine List.mem_map.mpr ⟨t, ht, ?_⟩
    simp only [if_pos hid, hc]
    rfl
  · intro t ht hid hc
    unfold toggleTaskCompletion
    refine List.mem_map.mpr ⟨t, ht, ?_⟩
    simp only [if_pos hid, hc]
    rfl

/-- C7 witness: on a one-task list satisfying the invariant, toggling the
pending task and submitting a valid add form both yield collections that
still satisfy the invariant. -/
theorem taskOps_completedAt_witness :
    CompletedAtConsistent (toggleTaskCompletion [taskW] "1" 5) ∧
    CompletedAtConsistent (addTask [taskW] formW "2" 5) := by
  have h := taskOps_completedAt [taskW] formW "2" 5 "1" "1" (by
    intro t ht
    rw [List.mem_singleton] at ht
    subst ht
    rfl)
  exact ⟨h.2.2.1, h.1⟩

end TM
